import Mathlib

set_option maxHeartbeats 1000000

namespace EigenDA

/-- Network parameters (source: the meterer package's Config struct). In Go,
GlobalBytesPerSecond is uint64 while PricePerChargeable, MinChargeableSize and
ReservationWindow are uint32. Values are carried as naturals; fixed-width
wraparound is made explicit at the arithmetic operations where Go wraps. -/
structure Config where
  GlobalBytesPerSecond : Nat
  PricePerChargeable : Nat
  MinChargeableSize : Nat
  ReservationWindow : Nat
deriving DecidableEq

/-- Request header fields consumed by the meterer (source: BlobHeader payment
metadata: AccountID, QuorumNumbers, DataLength (uint32), BinIndex (uint32),
CumulativePayment (uint64)). -/
structure BlobHeader where
  AccountID : String
  QuorumNumbers : List Nat
  DataLength : Nat
  BinIndex : Nat
  CumulativePayment : Nat
deriving DecidableEq

/-- Active reservation read from chain (source: ActiveReservation: DataRate
(uint64), StartTimestamp and EndTimestamp (uint64 seconds), QuorumNumbers). -/
structure ActiveReservation where
  DataRate : Nat
  StartTimestamp : Nat
  EndTimestamp : Nat
  QuorumNumbers : List Nat
deriving DecidableEq

/-- On-demand deposit read from chain (source: OnDemandPayment). -/
structure OnDemandPayment where
  CumulativePayment : Nat
deriving DecidableEq

/-- Error kinds returned by the meterer. Each constructor stands for one of the
fmt.Errorf sites in the source metering file (the source carries them as error
strings; the spec enumerates the kinds). -/
inductive MeterError where
  | noQuorumParams
  | quorumNumberMismatch (q : Nat)
  | invalidBinIndex
  | binAlreadyFilled
  | overflowExceedsBinLimit
  | paymentInsertConflict
  | insufficientDeposit
  | insufficientIncrement
  | breakingPaymentInvariants
  | globalBinUsageOverflows
  | globalRateLimited
  | reservationNotFound
  | onDemandPaymentNotFound
  | invalidGlobalBinIndex
deriving DecidableEq

instance {ε α : Type} [DecidableEq ε] [DecidableEq α] : DecidableEq (Except ε α) := fun x y =>
  match x, y with
  | .ok a, .ok b =>
    if h : a = b then isTrue (by rw [h]) else isFalse (by intro hc; cases hc; exact h rfl)
  | .error a, .error b =>
    if h : a = b then isTrue (by rw [h]) else isFalse (by intro hc; cases hc; exact h rfl)
  | .ok a, .error b => isFalse (by intro hc; cases hc)
  | .error a, .ok b => isFalse (by intro hc; cases hc)

/-- Off-chain store contents: reservation bin counters keyed by
(account, bin index), global per-second counters keyed by bin index, and
on-demand payment records (account, cumulative payment, stored data length).
Newest entries are consed at the front; lookups read the newest entry. -/
structure OffchainState where
  reservationBins : List ((String × Nat) × Nat)
  globalBins : List (Nat × Nat)
  onDemandRecords : List (String × Nat × Nat)
deriving DecidableEq

def OffchainState.empty : OffchainState := ⟨[], [], []⟩

def lookupBin (bins : List ((String × Nat) × Nat)) (accountID : String) (binIndex : Nat) : Nat :=
  match bins.find? (fun e => e.1.1 == accountID && e.1.2 == binIndex) with
  | some e => e.2
  | none => 0

/-- Modelled from the spec: increment_reservation_bin(account, bin_index, delta)
returns the post-increment usage (OffchainStore.UpdateReservationBin is code of
this repository that is not under src/). The counter is an atomic read-modify-write
add; it is modelled as an unbounded natural counter. -/
def UpdateReservationBin (st : OffchainState) (accountID : String) (binIndex : Nat) (size : Nat) : Nat × OffchainState :=
  let newUsage := lookupBin st.reservationBins accountID binIndex + size
  (newUsage, { st with reservationBins := ((accountID, binIndex), newUsage) :: st.reservationBins })

def lookupGlobalBin (bins : List (Nat × Nat)) (binIndex : Nat) : Nat :=
  match bins.find? (fun e => e.1 == binIndex) with
  | some e => e.2
  | none => 0

/-- Modelled from the spec: increment_global_bin(bin_index, delta) returns the
post-increment usage (OffchainStore.UpdateGlobalBin is not under src/). -/
def UpdateGlobalBin (st : OffchainState) (binIndex : Nat) (size : Nat) : Nat × OffchainState :=
  let newUsage := lookupGlobalBin st.globalBins binIndex + size
  (newUsage, { st with globalBins := (binIndex, newUsage) :: st.globalBins })

def hasOnDemandRecord (st : OffchainState) (accountID : String) (cumulativePayment : Nat) : Bool :=
  st.onDemandRecords.any (fun r => r.1 == accountID && r.2.1 == cumulativePayment)

def insertOnDemandRecord (st : OffchainState) (accountID : String) (cumulativePayment : Nat) (dataLength : Nat) : OffchainState :=
  { st with onDemandRecords := (accountID, cumulativePayment, dataLength) :: st.onDemandRecords }

/-- Modelled from the spec: insert_on_demand_payment(account, cumulative_payment,
data_length) is a conditional insert that fails on key conflict
(OffchainStore.AddOnDemandPayment is not under src/). The source passes the
chargeable blob size as the stored data length. -/
def AddOnDemandPayment (st : OffchainState) (accountID : String) (cumulativePayment : Nat) (dataLength : Nat) : Except MeterError OffchainState :=
  if hasOnDemandRecord st accountID cumulativePayment then .error .paymentInsertConflict
  else .ok (insertOnDemandRecord st accountID cumulativePayment dataLength)

/-- Modelled from the spec: delete_on_demand_payment(account, cumulative_payment)
(OffchainStore.RemoveOnDemandPayment is not under src/). -/
def RemoveOnDemandPayment (st : OffchainState) (accountID : String) (cumulativePayment : Nat) : OffchainState :=
  { st with onDemandRecords := st.onDemandRecords.filter (fun r => !(r.1 == accountID && r.2.1 == cumulativePayment)) }

/-- The (payment, data length) pairs stored for one account. -/
def storedPayments (st : OffchainState) (accountID : String) : List (Nat × Nat) :=
  (st.onDemandRecords.filter (fun r => r.1 == accountID)).map (fun r => r.2)

def prevStep (cum : Nat) (acc : Nat) (p : Nat × Nat) : Nat :=
  if p.1 < cum then max acc p.1 else acc

def prevPaymentOf (ps : List (Nat × Nat)) (cum : Nat) : Nat :=
  ps.foldl (prevStep cum) 0

def nextStep (cum : Nat) (acc : Option (Nat × Nat)) (p : Nat × Nat) : Option (Nat × Nat) :=
  if cum < p.1 then
    match acc with
    | none => some p
    | some q => if p.1 < q.1 then some p else acc
  else acc

def nextRecordOf (ps : List (Nat × Nat)) (cum : Nat) : Option (Nat × Nat) :=
  ps.foldl (nextStep cum) none

/-- Modelled from the spec: neighbors(account, cumulative_payment) returns the
largest stored payment strictly below (0 if none), the smallest stored payment
strictly above (0 if none) and the data length stored with the latter (0 if
none) (OffchainStore.GetRelevantOnDemandRecords is not under src/). -/
def GetRelevantOnDemandRecords (st : OffchainState) (accountID : String) (cumulativePayment : Nat) : Nat × Nat × Nat :=
  match nextRecordOf (storedPayments st accountID) cumulativePayment with
  | some q => (prevPaymentOf (storedPayments st accountID) cumulativePayment, q.1, q.2)
  | none => (prevPaymentOf (storedPayments st accountID) cumulativePayment, 0, 0)

/-- Source: var OnDemandQuorumNumbers. -/
def OnDemandQuorumNumbers : List Nat := [0, 1]

/-- Source: GetBinIndex. The Go code computes uint32(timestamp) / binInterval,
truncating the uint64 timestamp to 32 bits before the division. -/
def GetBinIndex (timestamp : Nat) (binInterval : Nat) : Nat :=
  (timestamp % 2 ^ 32) / binInterval

/-- Source: BlobSizeCharged. -/
def BlobSizeCharged (m : Config) (dataLength : Nat) : Nat :=
  max dataLength m.MinChargeableSize

/-- Modelled from the spec: ceil_div (core.RoundUpDivide is code of this
repository that is not under src/; the spec defines charge via ceil_div). -/
def RoundUpDivide (a : Nat) (b : Nat) : Nat := (a + b - 1) / b

/-- Source: PaymentCharged. The Go expression multiplies two uint32 values
(BlobSizeCharged result and PricePerChargeable) in 32-bit arithmetic before
widening to uint for the division, so the product wraps modulo 2^32. -/
def PaymentCharged (m : Config) (dataLength : Nat) : Nat :=
  RoundUpDivide ((BlobSizeCharged m dataLength * m.PricePerChargeable) % 2 ^ 32) m.MinChargeableSize

/-- Source: ValidateQuorum. Errors on an empty quorum list, otherwise on the
first quorum number not contained in the allowed list. -/
def ValidateQuorum (blobHeader : BlobHeader) (allowedQuoroms : List Nat) : Except MeterError Unit :=
  if blobHeader.QuorumNumbers.length = 0 then .error .noQuorumParams
  else
    match blobHeader.QuorumNumbers.find? (fun q => !(allowedQuoroms.contains q)) with
    | some q => .error (.quorumNumberMismatch q)
    | none => .ok ()

/-- Source: ValidateBinIndex. now stands for uint64(time.Now().Unix()); the Go
uint32 subtraction currentBinIndex - 1 wraps modulo 2^32. -/
def ValidateBinIndex (m : Config) (now : Nat) (blobHeader : BlobHeader) (reservation : ActiveReservation) : Bool :=
  let currentBinIndex := GetBinIndex now m.ReservationWindow
  if (blobHeader.BinIndex ≠ currentBinIndex ∧ blobHeader.BinIndex ≠ (currentBinIndex + 2 ^ 32 - 1) % 2 ^ 32)
      ∨ (GetBinIndex reservation.StartTimestamp m.ReservationWindow > blobHeader.BinIndex
         ∨ blobHeader.BinIndex > GetBinIndex reservation.EndTimestamp m.ReservationWindow)
  then false
  else true

/-- Source: IncrementBinUsage. The Go uint32 addition BinIndex + 2 and the
uint64 product 2 * DataRate wrap, made explicit here; the uint64 subtractions
cannot underflow on the paths where the source computes them. -/
def IncrementBinUsage (m : Config) (st : OffchainState) (blobHeader : BlobHeader) (reservation : ActiveReservation) : Except MeterError Unit × OffchainState :=
  let recordedSize := max blobHeader.DataLength m.MinChargeableSize
  let r := UpdateReservationBin st blobHeader.AccountID blobHeader.BinIndex recordedSize
  if r.1 ≤ reservation.DataRate then (.ok (), r.2)
  else if r.1 - recordedSize ≥ reservation.DataRate then (.error .binAlreadyFilled, r.2)
  else if r.1 ≤ (2 * reservation.DataRate) % 2 ^ 64 ∧ (blobHeader.BinIndex + 2) % 2 ^ 32 ≤ GetBinIndex reservation.EndTimestamp m.ReservationWindow then
    (.ok (), (UpdateReservationBin r.2 blobHeader.AccountID ((blobHeader.BinIndex + 2) % 2 ^ 32) (r.1 - reservation.DataRate)).2)
  else (.error .overflowExceedsBinLimit, r.2)

/-- Source: ServeReservationRequest. -/
def ServeReservationRequest (m : Config) (now : Nat) (st : OffchainState) (blobHeader : BlobHeader) (reservation : ActiveReservation) : Except MeterError Unit × OffchainState :=
  match ValidateQuorum blobHeader reservation.QuorumNumbers with
  | .error e => (.error e, st)
  | .ok _ =>
    if ValidateBinIndex m now blobHeader reservation then
      IncrementBinUsage m st blobHeader reservation
    else (.error .invalidBinIndex, st)

/-- Source: ValidatePayment. The uint64 additions wrap modulo 2^64, made
explicit here. -/
def ValidatePayment (m : Config) (st : OffchainState) (blobHeader : BlobHeader) (onDemandPayment : OnDemandPayment) : Except MeterError Unit :=
  if blobHeader.CumulativePayment > onDemandPayment.CumulativePayment then .error .insufficientDeposit
  else
    let r := GetRelevantOnDemandRecords st blobHeader.AccountID blobHeader.CumulativePayment
    if (r.1 + PaymentCharged m blobHeader.DataLength) % 2 ^ 64 > blobHeader.CumulativePayment then
      .error .insufficientIncrement
    else if r.2.1 ≠ 0 ∧ (blobHeader.CumulativePayment + PaymentCharged m r.2.2) % 2 ^ 64 > r.2.1 then
      .error .breakingPaymentInvariants
    else .ok ()

/-- Source: ValidateGlobalBinIndex. now stands for time.Now().Unix(); the Go
code truncates it with uint32(...) and the uint32 subtraction wraps. -/
def ValidateGlobalBinIndex (now : Nat) (blobHeader : BlobHeader) : Except MeterError Nat :=
  let currentBinIndex := now % 2 ^ 32
  if blobHeader.BinIndex ≠ currentBinIndex ∧ blobHeader.BinIndex ≠ (currentBinIndex + 2 ^ 32 - 1) % 2 ^ 32
  then .error .invalidGlobalBinIndex
  else .ok currentBinIndex

/-- Source: IncrementGlobalBinUsage. The global index is the untruncated
uint64(time.Now().Unix()). -/
def IncrementGlobalBinUsage (m : Config) (now : Nat) (st : OffchainState) (blobSizeCharged : Nat) : Except MeterError Unit × OffchainState :=
  let r := UpdateGlobalBin st now blobSizeCharged
  if r.1 > m.GlobalBytesPerSecond then (.error .globalBinUsageOverflows, r.2)
  else (.ok (), r.2)

/-- Source: ServeOnDemandRequest. On a global-rate failure the source replaces
the inner error with a fresh one and deletes the inserted record; on a
ValidatePayment failure it returns without deleting (no rollbacks). -/
def ServeOnDemandRequest (m : Config) (now : Nat) (st : OffchainState) (blobHeader : BlobHeader) (onDemandPayment : OnDemandPayment) : Except MeterError Unit × OffchainState :=
  match ValidateQuorum blobHeader OnDemandQuorumNumbers with
  | .error e => (.error e, st)
  | .ok _ =>
    let blobSizeCharged := BlobSizeCharged m blobHeader.DataLength
    match AddOnDemandPayment st blobHeader.AccountID blobHeader.CumulativePayment blobSizeCharged with
    | .error e => (.error e, st)
    | .ok st1 =>
      match ValidatePayment m st1 blobHeader onDemandPayment with
      | .error e => (.error e, st1)
      | .ok _ =>
        let g := IncrementGlobalBinUsage m now st1 blobSizeCharged
        match g.1 with
        | .error _ => (.error .globalRateLimited, RemoveOnDemandPayment g.2 blobHeader.AccountID blobHeader.CumulativePayment)
        | .ok _ => (.ok (), g.2)

/-- On-chain payment state observed by the meterer (source: OnchainPaymentState,
modelled from the spec as a read-only snapshot keyed by account; the chain
adapter is not under src/). -/
structure OnchainPaymentState where
  CurrentBlockNumber : Nat
  ActiveReservations : List (String × ActiveReservation)
  OnDemandPayments : List (String × OnDemandPayment)

/-- Modelled from the spec: active_reservation(block, account); the block
argument selects the snapshot, which this model holds fixed. -/
def GetActiveReservationByAccount (cs : OnchainPaymentState) (blockNumber : Nat) (accountID : String) : Option ActiveReservation :=
  match cs.ActiveReservations.find? (fun e => e.1 == accountID) with
  | some e => some e.2
  | none => none

/-- Modelled from the spec: on_demand_payment(block, account). -/
def GetOnDemandPaymentByAccount (cs : OnchainPaymentState) (blockNumber : Nat) (accountID : String) : Option OnDemandPayment :=
  match cs.OnDemandPayments.find? (fun e => e.1 == accountID) with
  | some e => some e.2
  | none => none

/-- Source: MeterRequest. Routes on CumulativePayment == 0 and propagates the
accountant's decision. -/
def MeterRequest (m : Config) (cs : OnchainPaymentState) (now : Nat) (st : OffchainState) (header : BlobHeader) : Except MeterError Unit × OffchainState :=
  let blockNumber := cs.CurrentBlockNumber
  if header.CumulativePayment = 0 then
    match GetActiveReservationByAccount cs blockNumber header.AccountID with
    | none => (.error .reservationNotFound, st)
    | some reservation => ServeReservationRequest m now st header reservation
  else
    match GetOnDemandPaymentByAccount cs blockNumber header.AccountID with
    | none => (.error .onDemandPaymentNotFound, st)
    | some onDemandPayment => ServeOnDemandRequest m now st header onDemandPayment

/-- A sequence of reservation-path requests processed by the meterer, threading
the off-chain store state; each element carries the clock reading, the header
and the reservation in force for it. -/
def processReservationRequests (m : Config) (st : OffchainState) (reqs : List (Nat × BlobHeader × ActiveReservation)) : OffchainState :=
  reqs.foldl (fun s r => (ServeReservationRequest m r.1 s r.2.1 r.2.2).2) st

/-- Stated from claim C1's words, for comparison with the source's
IncrementBinUsage: the spill-window bound is floor(end_ts / reservation_window)
with exact (untruncated) arithmetic, and bin_index + 2 is exact. -/
def IncrementBinUsageClaim (m : Config) (st : OffchainState) (blobHeader : BlobHeader) (reservation : ActiveReservation) : Except MeterError Unit × OffchainState :=
  let recordedSize := max blobHeader.DataLength m.MinChargeableSize
  let r := UpdateReservationBin st blobHeader.AccountID blobHeader.BinIndex recordedSize
  if r.1 ≤ reservation.DataRate then (.ok (), r.2)
  else if r.1 - recordedSize ≥ reservation.DataRate then (.error .binAlreadyFilled, r.2)
  else if r.1 ≤ 2 * reservation.DataRate ∧ blobHeader.BinIndex + 2 ≤ reservation.EndTimestamp / m.ReservationWindow then
    (.ok (), (UpdateReservationBin r.2 blobHeader.AccountID (blobHeader.BinIndex + 2) (r.1 - reservation.DataRate)).2)
  else (.error .overflowExceedsBinLimit, r.2)

/-- Concrete configuration: min_chargeable_size 1, reservation_window 1. -/
def cfgA : Config := ⟨1000000, 100, 1, 1⟩

/-- Concrete configuration whose price makes the 32-bit product wrap. -/
def cfgB : Config := ⟨1000000, 4194304, 1024, 60⟩

/-- Concrete configuration with the spec's boundary-scenario parameters. -/
def cfgC : Config := ⟨1000000, 100, 1024, 60⟩

/-- Concrete configuration with a tiny global cap. -/
def cfgD : Config := ⟨100, 100, 1024, 60⟩

/-- Reservation whose end timestamp is exactly 2 to the 32, seen by the source's
GetBinIndex as bin 0. -/
def resA : ActiveReservation := ⟨10, 0, 4294967296, [0]⟩

/-- Ordinary reservation: rate 10, valid seconds 0 to 100. -/
def resB : ActiveReservation := ⟨10, 0, 100, [0]⟩

def hdrA : BlobHeader := ⟨"a", [0], 15, 5, 0⟩

def hdrB : BlobHeader := ⟨"a", [0], 100, 5, 0⟩

def hdrC : BlobHeader := ⟨"a", [0], 5, 5, 0⟩

def hdrD : BlobHeader := ⟨"a", [0], 2048, 5, 200⟩

/-- On-demand header continuing a history at payment 200. -/
def hdrE : BlobHeader := ⟨"a", [0], 1024, 5, 500⟩

def depA : OnDemandPayment := ⟨1000000⟩

/-- Store state holding one on-demand record for account a. -/
def stE : OffchainState := ⟨[], [], [("a", 200, 2048)]⟩

def csA : OnchainPaymentState := ⟨123, [("a", resB)], [("a", depA)]⟩

theorem lookupBin_cons_self (bins : List ((String × Nat) × Nat)) (a : String) (i v : Nat) :
    lookupBin (((a, i), v) :: bins) a i = v := by
  unfold lookupBin
  rw [List.find?_cons_of_pos _ (by simp)]

theorem lookupBin_cons_ne (bins : List ((String × Nat) × Nat)) (a : String) (i j v : Nat)
    (hne : j ≠ i) : lookupBin (((a, j), v) :: bins) a i = lookupBin bins a i := by
  unfold lookupBin
  rw [List.find?_cons_of_neg _ (by simp [hne])]

theorem spillBin_ne (b : Nat) : (b + 2) % 2 ^ 32 ≠ b := by
  have h32 : (2 : Nat) ^ 32 = 4294967296 := by norm_num
  rw [h32]
  omega

/-- Truncating a timestamp to a smaller residue strictly lowers the bin index
once the timestamp reaches the modulus. -/
theorem trunc_div_lt (N t w : Nat) (hw : 0 < w) (hwN : w ≤ N) (ht : N ≤ t) :
    t % N / w < t / w := by
  have hN : 0 < N := lt_of_lt_of_le hw hwN
  have hdiv : 1 ≤ t / N := (Nat.one_le_div_iff hN).mpr ht
  have hts : t % N + N ≤ t := by
    have h0 := Nat.mod_add_div t N
    have h1 : N ≤ N * (t / N) := by
      simpa using Nat.mul_le_mul_left N hdiv
    calc t % N + N ≤ t % N + N * (t / N) := Nat.add_le_add_left h1 _
      _ = t := h0
  have hmono : (t % N + N) / w ≤ t / w := Nat.div_le_div_right hts
  have hsuper : t % N / w + N / w ≤ (t % N + N) / w := by
    rw [Nat.le_div_iff_mul_le hw]
    have h1 := Nat.div_mul_le_self (t % N) w
    have h2 := Nat.div_mul_le_self N w
    calc (t % N / w + N / w) * w = t % N / w * w + N / w * w := Nat.add_mul _ _ _
      _ ≤ t % N + N := Nat.add_le_add h1 h2
  have hone : 1 ≤ N / w := (Nat.one_le_div_iff hw).mpr hwN
  calc t % N / w < t % N / w + 1 := Nat.lt_succ_self _
    _ ≤ t % N / w + N / w := Nat.add_le_add_left hone _
    _ ≤ (t % N + N) / w := hsuper
    _ ≤ t / w := hmono

/-- C10: for every u64 timestamp t and window w with 0 < w < 2 to the 32,
GetBinIndex(t, w) equals (t mod 2 to the 32) / w; for timestamps at or above
2 to the 32 seconds this differs from floor(t / w). -/
theorem getBinIndex_truncates (t w : Nat) (hw : 0 < w) (hw32 : w < 2 ^ 32) (ht : 2 ^ 32 ≤ t) :
    GetBinIndex t w = t % 2 ^ 32 / w ∧ GetBinIndex t w ≠ t / w := by
  refine ⟨rfl, ?_⟩
  have h := trunc_div_lt (2 ^ 32) t w hw (le_of_lt hw32) ht
  unfold GetBinIndex
  exact Nat.ne_of_lt h

theorem getBinIndex_truncates_witness :
    GetBinIndex 4294967296 60 = 4294967296 % 2 ^ 32 / 60 ∧
    GetBinIndex 4294967296 60 ≠ 4294967296 / 60 :=
  getBinIndex_truncates 4294967296 60 (by norm_num) (by norm_num) (by norm_num)

/-- C4: evaluation of PaymentCharged at the failing input. With
min_chargeable_size 1024 and price_per_chargeable 4194304 the true product for
data_length 1048576 is 2 to the 42 and the 64-bit ceiling division of it by
1024 is 4294967296, but the source multiplies in uint32, the product wraps to
0, and the request is charged 0 with no overflow rejection. -/
theorem paymentCharged_overflow_wraps :
    PaymentCharged cfgB 1048576 = 0 ∧
    RoundUpDivide (BlobSizeCharged cfgB 1048576 * cfgB.PricePerChargeable)
      cfgB.MinChargeableSize = 4294967296 := by
  decide

/-- C1 counterexample: at min_chargeable_size 1, reservation_window 1, a
reservation with data_rate 10 ending at second 2 to the 32, and a request of
data_length 15 in bin 5, the claim's rule (bin_index + 2 at most
floor(end_ts / reservation_window)) spills and accepts, but the source's
IncrementBinUsage compares against the 32-bit-truncated GetBinIndex of the end
timestamp (bin 0) and rejects. -/
theorem c1_counterexample :
    (IncrementBinUsage cfgA OffchainState.empty hdrA resA).1 = .error .overflowExceedsBinLimit ∧
    (IncrementBinUsageClaim cfgA OffchainState.empty hdrA resA).1 = .ok () := by
  decide

/-- C1 (amended): IncrementBinUsage first increments the stored counter at
(account_id, bin_index) by size = max(data_length, min_chargeable_size)
obtaining new_usage; accepts if new_usage is at most data_rate; rejects if
new_usage - size is at least data_rate; otherwise, if new_usage is at most
2 * data_rate (u64) and (bin_index + 2) mod 2 to the 32 is at most
GetBinIndex(end_ts, reservation_window) — the window bound the source actually
computes, with end_ts truncated to 32 bits — it adds new_usage - data_rate to
the counter at (account_id, (bin_index + 2) mod 2 to the 32), skipping
bin_index + 1, and accepts; otherwise it rejects. -/
theorem incrementBinUsage_cases (m : Config) (st : OffchainState) (hd : BlobHeader)
    (res : ActiveReservation) :
    (lookupBin st.reservationBins hd.AccountID hd.BinIndex + max hd.DataLength m.MinChargeableSize ≤ res.DataRate →
      IncrementBinUsage m st hd res =
        (.ok (), (UpdateReservationBin st hd.AccountID hd.BinIndex (max hd.DataLength m.MinChargeableSize)).2)) ∧
    (res.DataRate < lookupBin st.reservationBins hd.AccountID hd.BinIndex + max hd.DataLength m.MinChargeableSize →
      res.DataRate ≤ lookupBin st.reservationBins hd.AccountID hd.BinIndex →
      IncrementBinUsage m st hd res =
        (.error .binAlreadyFilled, (UpdateReservationBin st hd.AccountID hd.BinIndex (max hd.DataLength m.MinChargeableSize)).2)) ∧
    (res.DataRate < lookupBin st.reservationBins hd.AccountID hd.BinIndex + max hd.DataLength m.MinChargeableSize →
      lookupBin st.reservationBins hd.AccountID hd.BinIndex < res.DataRate →
      lookupBin st.reservationBins hd.AccountID hd.BinIndex + max hd.DataLength m.MinChargeableSize ≤ (2 * res.DataRate) % 2 ^ 64 →
      (hd.BinIndex + 2) % 2 ^ 32 ≤ GetBinIndex res.EndTimestamp m.ReservationWindow →
      IncrementBinUsage m st hd res =
        (.ok (), (UpdateReservationBin
            (UpdateReservationBin st hd.AccountID hd.BinIndex (max hd.DataLength m.MinChargeableSize)).2
            hd.AccountID ((hd.BinIndex + 2) % 2 ^ 32)
            (lookupBin st.reservationBins hd.AccountID hd.BinIndex + max hd.DataLength m.MinChargeableSize - res.DataRate)).2)) ∧
    (res.DataRate < lookupBin st.reservationBins hd.AccountID hd.BinIndex + max hd.DataLength m.MinChargeableSize →
      lookupBin st.reservationBins hd.AccountID hd.BinIndex < res.DataRate →
      ¬(lookupBin st.reservationBins hd.AccountID hd.BinIndex + max hd.DataLength m.MinChargeableSize ≤ (2 * res.DataRate) % 2 ^ 64 ∧
          (hd.BinIndex + 2) % 2 ^ 32 ≤ GetBinIndex res.EndTimestamp m.ReservationWindow) →
      IncrementBinUsage m st hd res =
        (.error .overflowExceedsBinLimit, (UpdateReservationBin st hd.AccountID hd.BinIndex (max hd.DataLength m.MinChargeableSize)).2)) := by
  have e1 : (UpdateReservationBin st hd.AccountID hd.BinIndex (max hd.DataLength m.MinChargeableSize)).1
      = lookupBin st.reservationBins hd.AccountID hd.BinIndex + max hd.DataLength m.MinChargeableSize := rfl
  refine ⟨fun h1 => ?_, fun h1 h2 => ?_, fun h1 h2 h3 h4 => ?_, fun h1 h2 h3 => ?_⟩ <;>
    simp only [IncrementBinUsage, e1, Nat.add_sub_cancel, ge_iff_le]
  · rw [if_pos h1]
  · rw [if_neg (Nat.not_le.mpr h1), if_pos h2]
  · rw [if_neg (Nat.not_le.mpr h1), if_neg (Nat.not_le.mpr h2), if_pos ⟨h3, h4⟩]
  · rw [if_neg (Nat.not_le.mpr h1), if_neg (Nat.not_le.mpr h2), if_neg h3]

theorem incrementBinUsage_cases_witness :
    IncrementBinUsage cfgA OffchainState.empty hdrC resB =
      (.ok (), (UpdateReservationBin OffchainState.empty hdrC.AccountID hdrC.BinIndex
        (max hdrC.DataLength cfgA.MinChargeableSize)).2) :=
  (incrementBinUsage_cases cfgA OffchainState.empty hdrC resB).1 (by decide)

/-- C3 counterexample: a single reservation-path request of data_length 100
against data_rate 10 is rejected, but its increment persists: the stored usage
at (a, 5) after the sequence is 100, exceeding 2 * data_rate = 20. -/
theorem c3_counterexample :
    2 * resB.DataRate <
      lookupBin (processReservationRequests cfgA OffchainState.empty
        [(5, hdrB, resB)]).reservationBins hdrB.AccountID hdrB.BinIndex := by
  decide

theorem updateReservationBin_eq (st : OffchainState) (a : String) (i s : Nat) :
    UpdateReservationBin st a i s =
      (lookupBin st.reservationBins a i + s,
       { st with reservationBins :=
          ((a, i), lookupBin st.reservationBins a i + s) :: st.reservationBins }) := rfl

theorem incrementBinUsage_ok_bound (m : Config) (st : OffchainState) (hd : BlobHeader)
    (res : ActiveReservation)
    (hacc : (IncrementBinUsage m st hd res).1 = .ok ()) :
    lookupBin (IncrementBinUsage m st hd res).2.reservationBins hd.AccountID hd.BinIndex ≤
      2 * res.DataRate := by
  simp only [IncrementBinUsage, updateReservationBin_eq] at hacc ⊢
  split_ifs at hacc ⊢ with h1 h2 h3
  · dsimp only
    rw [lookupBin_cons_self]
    omega
  · dsimp only
    rw [lookupBin_cons_ne _ _ _ _ _ (spillBin_ne hd.BinIndex), lookupBin_cons_self]
    exact le_trans h3.1 (Nat.mod_le _ _)

/-- C3 (amended): immediately after any accepted reservation request, the
stored usage at that request's (account_id, bin_index) is at most
2 * data_rate of the reservation. (The unamended claim fails because rejected
requests' increments persist in the store with no rollback.) -/
theorem reservation_accepted_usage_bound (m : Config) (now : Nat) (st : OffchainState)
    (hd : BlobHeader) (res : ActiveReservation)
    (hacc : (ServeReservationRequest m now st hd res).1 = .ok ()) :
    lookupBin (ServeReservationRequest m now st hd res).2.reservationBins hd.AccountID hd.BinIndex ≤
      2 * res.DataRate := by
  unfold ServeReservationRequest at hacc ⊢
  cases hq : ValidateQuorum hd res.QuorumNumbers with
  | error e =>
    rw [hq] at hacc
    simp at hacc
  | ok u =>
    rw [hq] at hacc
    dsimp only at hacc ⊢
    by_cases hb : ValidateBinIndex m now hd res = true
    · rw [if_pos hb] at hacc ⊢
      exact incrementBinUsage_ok_bound m st hd res hacc
    · rw [if_neg hb] at hacc
      simp at hacc

theorem reservation_accepted_usage_bound_witness :
    lookupBin (ServeReservationRequest cfgA 5 OffchainState.empty hdrC resB).2.reservationBins
      hdrC.AccountID hdrC.BinIndex ≤ 2 * resB.DataRate :=
  reservation_accepted_usage_bound cfgA 5 OffchainState.empty hdrC resB (by decide)

/-- C7: the quorum check accepts exactly when quorum_numbers is non-empty and
every element lies in the allowed set; a failing check rejects the whole
request, with the reservation's quorum set on the reservation path and the
fixed OnDemandQuorumNumbers = [0, 1] on the on-demand path. -/
theorem validateQuorum_characterization (hd : BlobHeader) (allowed : List Nat) (m : Config)
    (now : Nat) (st : OffchainState) (res : ActiveReservation) (dep : OnDemandPayment) :
    ((ValidateQuorum hd allowed = .ok ()) ↔
      (hd.QuorumNumbers ≠ [] ∧ ∀ q ∈ hd.QuorumNumbers, q ∈ allowed)) ∧
    (∀ e, ValidateQuorum hd res.QuorumNumbers = .error e →
      ServeReservationRequest m now st hd res = (.error e, st)) ∧
    (∀ e, ValidateQuorum hd OnDemandQuorumNumbers = .error e →
      ServeOnDemandRequest m now st hd dep = (.error e, st)) := by
  refine ⟨?_, ?_, ?_⟩
  · unfold ValidateQuorum
    by_cases hlen : hd.QuorumNumbers.length = 0
    · rw [if_pos hlen]
      simp [List.length_eq_zero.mp hlen]
    · rw [if_neg hlen]
      cases hf : hd.QuorumNumbers.find? (fun q => !(allowed.contains q)) with
      | some q =>
        dsimp only
        constructor
        · intro h0
          exact Except.noConfusion h0
        · intro hall
          exfalso
          have hmem := List.mem_of_find?_eq_some hf
          have hqq := List.find?_some hf
          have hcf : allowed.contains q = false := by simpa using hqq
          have hin := hall.2 q hmem
          have hct : allowed.contains q = true := List.elem_iff.mpr hin
          rw [hct] at hcf
          exact Bool.noConfusion hcf
      | none =>
        dsimp only
        rw [List.find?_eq_none] at hf
        constructor
        · intro _
          refine ⟨fun hnil => hlen (by rw [hnil]; rfl), fun q hq => ?_⟩
          have hne := hf q hq
          have hc : allowed.contains q = true := by
            cases hcc : allowed.contains q
            · exfalso
              apply hne
              rw [hcc]
              rfl
            · rfl
          exact List.elem_iff.mp hc
        · intro _
          rfl
  · intro e he
    unfold ServeReservationRequest
    rw [he]
  · intro e he
    unfold ServeOnDemandRequest
    rw [he]

theorem validateQuorum_characterization_witness :
    ValidateQuorum hdrB resB.QuorumNumbers = .ok () :=
  (validateQuorum_characterization hdrB resB.QuorumNumbers cfgA 5 OffchainState.empty resB
    depA).1.mpr (by decide)

/-- C9 counterexample: with the local clock at second 1000, a fully valid
on-demand request carrying bin_index 5 — neither the current second 1000 nor
the previous second 999 — is accepted by ServeOnDemandRequest: the
current-or-previous-second check of ValidateGlobalBinIndex (which would reject
it) is never invoked during request processing. -/
theorem c9_counterexample :
    (ServeOnDemandRequest cfgC 1000 OffchainState.empty hdrD depA).1 = .ok () ∧
    hdrD.BinIndex ≠ 1000 % 2 ^ 32 ∧
    hdrD.BinIndex ≠ (1000 % 2 ^ 32 + 2 ^ 32 - 1) % 2 ^ 32 ∧
    ValidateGlobalBinIndex 1000 hdrD = .error .invalidGlobalBinIndex := by
  decide

/-- C9 (amended): ValidateGlobalBinIndex accepts exactly the current or the
previous integer second (uint32-truncated), but it is not called during
on-demand request processing: the outcome of ServeOnDemandRequest is entirely
independent of the request's bin_index. -/
theorem globalBinIndex_check_unused (now : Nat) (hd : BlobHeader) :
    ((ValidateGlobalBinIndex now hd = .ok (now % 2 ^ 32)) ↔
      (hd.BinIndex = now % 2 ^ 32 ∨ hd.BinIndex = (now % 2 ^ 32 + 2 ^ 32 - 1) % 2 ^ 32)) ∧
    (∀ (m : Config) (st : OffchainState) (dep : OnDemandPayment) (i : Nat),
      ServeOnDemandRequest m now st { hd with BinIndex := i } dep =
        ServeOnDemandRequest m now st hd dep) := by
  constructor
  · simp only [ValidateGlobalBinIndex]
    by_cases h1 : hd.BinIndex = now % 2 ^ 32
    · rw [if_neg (fun hc => hc.1 h1)]
      exact ⟨fun _ => Or.inl h1, fun _ => rfl⟩
    · by_cases h2 : hd.BinIndex = (now % 2 ^ 32 + 2 ^ 32 - 1) % 2 ^ 32
      · rw [if_neg (fun hc => hc.2 h2)]
        exact ⟨fun _ => Or.inr h2, fun _ => rfl⟩
      · rw [if_pos ⟨h1, h2⟩]
        constructor
        · intro h0
          exact Except.noConfusion h0
        · intro h0
          rcases h0 with h0 | h0
          · exact absurd h0 h1
          · exact absurd h0 h2
  · intro m st dep i
    cases hd
    rfl

theorem globalBinIndex_check_unused_witness :
    ServeOnDemandRequest cfgC 1000 OffchainState.empty { hdrD with BinIndex := 999 } depA =
      ServeOnDemandRequest cfgC 1000 OffchainState.empty hdrD depA :=
  (globalBinIndex_check_unused 1000 hdrD).2 cfgC OffchainState.empty depA 999

/-- C6: MeterRequest routes to the reservation path (reading the active
reservation and calling ServeReservationRequest) exactly when
cumulative_payment equals 0, and to the on-demand path (reading the on-demand
deposit and calling ServeOnDemandRequest) otherwise; the accountant's decision
and state change are propagated to the caller. -/
theorem meterRequest_routing (m : Config) (cs : OnchainPaymentState) (now : Nat)
    (st : OffchainState) (hd : BlobHeader) :
    (hd.CumulativePayment = 0 →
      (∀ res, GetActiveReservationByAccount cs cs.CurrentBlockNumber hd.AccountID = some res →
        MeterRequest m cs now st hd = ServeReservationRequest m now st hd res) ∧
      (GetActiveReservationByAccount cs cs.CurrentBlockNumber hd.AccountID = none →
        MeterRequest m cs now st hd = (.error .reservationNotFound, st))) ∧
    (hd.CumulativePayment ≠ 0 →
      (∀ p, GetOnDemandPaymentByAccount cs cs.CurrentBlockNumber hd.AccountID = some p →
        MeterRequest m cs now st hd = ServeOnDemandRequest m now st hd p) ∧
      (GetOnDemandPaymentByAccount cs cs.CurrentBlockNumber hd.AccountID = none →
        MeterRequest m cs now st hd = (.error .onDemandPaymentNotFound, st))) := by
  constructor
  · intro h0
    constructor
    · intro res hres
      simp only [MeterRequest]
      rw [if_pos h0, hres]
    · intro hres
      simp only [MeterRequest]
      rw [if_pos h0, hres]
  · intro h0
    constructor
    · intro p hp
      simp only [MeterRequest]
      rw [if_neg h0, hp]
    · intro hp
      simp only [MeterRequest]
      rw [if_neg h0, hp]

theorem meterRequest_routing_witness :
    MeterRequest cfgA csA 5 OffchainState.empty hdrB =
      ServeReservationRequest cfgA 5 OffchainState.empty hdrB resB :=
  ((meterRequest_routing cfgA csA 5 OffchainState.empty hdrB).1 (by decide)).1 resB (by decide)

/-- C8 counterexample: with min_chargeable_size 1024 and price_per_chargeable
4194304, charge(600) evaluates to 0 (the 32-bit product 1024 * 4194304 wraps
to 0) while charge(1200) is 720896, so charge(600) + charge(600) falls short of
charge(600 + 600) - 1. -/
theorem c8_counterexample :
    PaymentCharged cfgB 600 + PaymentCharged cfgB 600 < PaymentCharged cfgB (600 + 600) - 1 := by
  decide

/-- Ceiling division distributes subadditively over a sum bound. -/
theorem roundUpDivide_le_add (c a1 a2 s : Nat) (hc : 0 < c) (hs : s ≤ a1 + a2) :
    RoundUpDivide s c ≤ RoundUpDivide a1 c + RoundUpDivide a2 c := by
  have e : ∀ x : Nat, RoundUpDivide x c = x ⌈/⌉ c := fun x => (Nat.ceilDiv_eq_add_pred_div x c).symm
  rw [e s, e a1, e a2]
  rw [ceilDiv_le_iff_le_mul hc]
  have h1 : a1 ≤ c * (a1 ⌈/⌉ c) := by
    have h := le_smul_ceilDiv (α := ℕ) (β := ℕ) (a := c) (b := a1) hc
    simpa [smul_eq_mul] using h
  have h2 : a2 ≤ c * (a2 ⌈/⌉ c) := by
    have h := le_smul_ceilDiv (α := ℕ) (β := ℕ) (a := c) (b := a2) hc
    simpa [smul_eq_mul] using h
  calc s ≤ a1 + a2 := hs
    _ ≤ c * (a1 ⌈/⌉ c) + c * (a2 ⌈/⌉ c) := Nat.add_le_add h1 h2
    _ = c * (a1 ⌈/⌉ c + a2 ⌈/⌉ c) := (Nat.mul_add _ _ _).symm

/-- C8 (amended): whenever min_chargeable_size is positive and the true product
max(l1 + l2, min_chargeable_size) * price_per_chargeable stays below 2 to the
32 (so the source's 32-bit multiplication does not wrap), the charge function
satisfies charge(l1) + charge(l2) at least charge(l1 + l2) - 1. The unamended
claim fails when the product wraps. -/
theorem paymentCharged_superadditive (m : Config) (l1 l2 : Nat)
    (hmin : 0 < m.MinChargeableSize)
    (hov : max (l1 + l2) m.MinChargeableSize * m.PricePerChargeable < 2 ^ 32) :
    PaymentCharged m (l1 + l2) - 1 ≤ PaymentCharged m l1 + PaymentCharged m l2 := by
  have hm1 : max l1 m.MinChargeableSize ≤ max (l1 + l2) m.MinChargeableSize := by omega
  have hm2 : max l2 m.MinChargeableSize ≤ max (l1 + l2) m.MinChargeableSize := by omega
  have h1 : max l1 m.MinChargeableSize * m.PricePerChargeable < 2 ^ 32 :=
    lt_of_le_of_lt (Nat.mul_le_mul_right _ hm1) hov
  have h2 : max l2 m.MinChargeableSize * m.PricePerChargeable < 2 ^ 32 :=
    lt_of_le_of_lt (Nat.mul_le_mul_right _ hm2) hov
  have hsum : max (l1 + l2) m.MinChargeableSize * m.PricePerChargeable ≤
      max l1 m.MinChargeableSize * m.PricePerChargeable +
        max l2 m.MinChargeableSize * m.PricePerChargeable := by
    have hmx : max (l1 + l2) m.MinChargeableSize ≤
        max l1 m.MinChargeableSize + max l2 m.MinChargeableSize := by omega
    calc max (l1 + l2) m.MinChargeableSize * m.PricePerChargeable
        ≤ (max l1 m.MinChargeableSize + max l2 m.MinChargeableSize) * m.PricePerChargeable :=
          Nat.mul_le_mul_right _ hmx
      _ = _ := Nat.add_mul _ _ _
  unfold PaymentCharged BlobSizeCharged
  rw [Nat.mod_eq_of_lt h1, Nat.mod_eq_of_lt h2, Nat.mod_eq_of_lt hov]
  have hle := roundUpDivide_le_add m.MinChargeableSize _ _ _ hmin hsum
  omega

theorem paymentCharged_superadditive_witness :
    PaymentCharged cfgC (1000 + 2000) - 1 ≤ PaymentCharged cfgC 1000 + PaymentCharged cfgC 2000 :=
  paymentCharged_superadditive cfgC 1000 2000 (by decide) (by decide)

theorem prevFold_ge_init (ps : List (Nat × Nat)) (cum a : Nat) :
    a ≤ ps.foldl (prevStep cum) a := by
  induction ps generalizing a with
  | nil => exact le_refl a
  | cons p t ih =>
    rw [List.foldl_cons]
    by_cases hp : p.1 < cum
    · have hstep : prevStep cum a p = max a p.1 := by unfold prevStep; rw [if_pos hp]
      rw [hstep]
      exact le_trans (le_max_left a p.1) (ih (max a p.1))
    · have hstep : prevStep cum a p = a := by unfold prevStep; rw [if_neg hp]
      rw [hstep]
      exact ih a

theorem prevFold_ub (ps : List (Nat × Nat)) (cum : Nat) :
    ∀ q : Nat × Nat, q ∈ ps → q.1 < cum → ∀ a, q.1 ≤ ps.foldl (prevStep cum) a := by
  induction ps with
  | nil =>
    intro q hq
    cases hq
  | cons p t ih =>
    intro q hq hlt a
    rw [List.foldl_cons]
    rcases List.mem_cons.mp hq with rfl | hqt
    · have hstep : prevStep cum a q = max a q.1 := by unfold prevStep; rw [if_pos hlt]
      rw [hstep]
      exact le_trans (le_max_right a q.1) (prevFold_ge_init t cum (max a q.1))
    · exact ih q hqt hlt (prevStep cum a p)

theorem prevFold_mem (ps : List (Nat × Nat)) (cum : Nat) :
    ∀ a, ps.foldl (prevStep cum) a = a ∨
      (∃ l, (ps.foldl (prevStep cum) a, l) ∈ ps ∧ ps.foldl (prevStep cum) a < cum) := by
  induction ps with
  | nil =>
    intro a
    exact Or.inl rfl
  | cons p t ih =>
    intro a
    rw [List.foldl_cons]
    by_cases hp : p.1 < cum
    · have hstep : prevStep cum a p = max a p.1 := by unfold prevStep; rw [if_pos hp]
      rw [hstep]
      rcases ih (max a p.1) with h | ⟨l, hmem, hlt⟩
      · rw [h]
        rcases max_choice a p.1 with hm | hm
        · exact Or.inl hm
        · refine Or.inr ⟨p.2, ?_, ?_⟩
          · rw [hm]
            exact List.mem_cons_self _ _
          · rw [hm]
            exact hp
      · exact Or.inr ⟨l, List.mem_cons_of_mem _ hmem, hlt⟩
    · have hstep : prevStep cum a p = a := by unfold prevStep; rw [if_neg hp]
      rw [hstep]
      rcases ih a with h | ⟨l, hmem, hlt⟩
      · exact Or.inl h
      · exact Or.inr ⟨l, List.mem_cons_of_mem _ hmem, hlt⟩

theorem nextStep_not_lt (cum : Nat) (acc : Option (Nat × Nat)) (p : Nat × Nat)
    (hp : ¬ cum < p.1) : nextStep cum acc p = acc := by
  unfold nextStep
  rw [if_neg hp]

theorem nextStep_of_none (cum : Nat) (p : Nat × Nat) (hp : cum < p.1) :
    nextStep cum none p = some p := by
  unfold nextStep
  rw [if_pos hp]

theorem nextStep_of_some (cum : Nat) (q1 p : Nat × Nat) (hp : cum < p.1) :
    nextStep cum (some q1) p = if p.1 < q1.1 then some p else some q1 := by
  unfold nextStep
  rw [if_pos hp]

theorem nextFold_none (ps : List (Nat × Nat)) (cum : Nat) :
    ∀ acc, ps.foldl (nextStep cum) acc = none → acc = none ∧ ∀ q ∈ ps, ¬ cum < q.1 := by
  induction ps with
  | nil =>
    intro acc h
    exact ⟨h, fun q hq => absurd hq (List.not_mem_nil q)⟩
  | cons p t ih =>
    intro acc h
    rw [List.foldl_cons] at h
    obtain ⟨hstep, ht⟩ := ih (nextStep cum acc p) h
    by_cases hp : cum < p.1
    · exfalso
      cases acc with
      | none =>
        rw [nextStep_of_none cum p hp] at hstep
        exact Option.noConfusion hstep
      | some q1 =>
        rw [nextStep_of_some cum q1 p hp] at hstep
        by_cases hq1 : p.1 < q1.1
        · rw [if_pos hq1] at hstep
          exact Option.noConfusion hstep
        · rw [if_neg hq1] at hstep
          exact Option.noConfusion hstep
    · rw [nextStep_not_lt cum acc p hp] at hstep
      refine ⟨hstep, fun q hq => ?_⟩
      rcases List.mem_cons.mp hq with rfl | hqt
      · exact hp
      · exact ht q hqt

theorem nextFold_some (ps : List (Nat × Nat)) (cum : Nat) :
    ∀ acc, (∀ q0, acc = some q0 → cum < q0.1) →
      ∀ q, ps.foldl (nextStep cum) acc = some q →
        cum < q.1 ∧ (q ∈ ps ∨ acc = some q) ∧
        (∀ p ∈ ps, cum < p.1 → q.1 ≤ p.1) ∧
        (∀ q0, acc = some q0 → q.1 ≤ q0.1) := by
  induction ps with
  | nil =>
    intro acc hacc q h
    refine ⟨hacc q h, Or.inr h, fun p hp => absurd hp (List.not_mem_nil p), fun q0 h0 => ?_⟩
    rw [h0] at h
    injection h with h1
    exact le_of_eq (congrArg Prod.fst h1).symm
  | cons p t ih =>
    intro acc hacc q h
    rw [List.foldl_cons] at h
    have hacc' : ∀ q0, nextStep cum acc p = some q0 → cum < q0.1 := by
      intro q0 h0
      by_cases hp : cum < p.1
      · cases acc with
        | none =>
          rw [nextStep_of_none cum p hp] at h0
          injection h0 with h1
          exact h1 ▸ hp
        | some q1 =>
          rw [nextStep_of_some cum q1 p hp] at h0
          by_cases hq1 : p.1 < q1.1
          · rw [if_pos hq1] at h0
            injection h0 with h1
            exact h1 ▸ hp
          · rw [if_neg hq1] at h0
            injection h0 with h1
            exact h1 ▸ hacc q1 rfl
      · rw [nextStep_not_lt cum acc p hp] at h0
        exact hacc q0 h0
    obtain ⟨hc, hmem, hub, hle⟩ := ih (nextStep cum acc p) hacc' q h
    refine ⟨hc, ?_, ?_, ?_⟩
    · rcases hmem with hq | hstep
      · exact Or.inl (List.mem_cons_of_mem _ hq)
      · by_cases hp : cum < p.1
        · cases acc with
          | none =>
            rw [nextStep_of_none cum p hp] at hstep
            injection hstep with h1
            exact Or.inl (h1 ▸ List.mem_cons_self p t)
          | some q1 =>
            rw [nextStep_of_some cum q1 p hp] at hstep
            by_cases hq1 : p.1 < q1.1
            · rw [if_pos hq1] at hstep
              injection hstep with h1
              exact Or.inl (h1 ▸ List.mem_cons_self p t)
            · rw [if_neg hq1] at hstep
              injection hstep with h1
              exact Or.inr (by rw [h1])
        · rw [nextStep_not_lt cum acc p hp] at hstep
          exact Or.inr hstep
    · intro r hr hcr
      rcases List.mem_cons.mp hr with rfl | hrt
      · cases acc with
        | none => exact hle r (nextStep_of_none cum r hcr)
        | some q1 =>
          by_cases hq1 : r.1 < q1.1
          · have hstep : nextStep cum (some q1) r = some r := by
              rw [nextStep_of_some cum q1 r hcr, if_pos hq1]
            exact hle r hstep
          · have hstep : nextStep cum (some q1) r = some q1 := by
              rw [nextStep_of_some cum q1 r hcr, if_neg hq1]
            have hqle := hle q1 hstep
            omega
      · exact hub r hrt hcr
    · intro q0 h0
      subst h0
      by_cases hp : cum < p.1
      · by_cases hq1 : p.1 < q0.1
        · have hstep : nextStep cum (some q0) p = some p := by
            rw [nextStep_of_some cum q0 p hp, if_pos hq1]
          have hqp := hle p hstep
          omega
        · have hstep : nextStep cum (some q0) p = some q0 := by
            rw [nextStep_of_some cum q0 p hp, if_neg hq1]
          exact hle q0 hstep
      · exact hle q0 (nextStep_not_lt cum (some q0) p hp)

theorem getRelevant_eq_of_none (st : OffchainState) (a : String) (c : Nat)
    (hn : nextRecordOf (storedPayments st a) c = none) :
    GetRelevantOnDemandRecords st a c = (prevPaymentOf (storedPayments st a) c, 0, 0) := by
  unfold GetRelevantOnDemandRecords
  rw [hn]

theorem getRelevant_eq_of_some (st : OffchainState) (a : String) (c : Nat) (q : Nat × Nat)
    (hn : nextRecordOf (storedPayments st a) c = some q) :
    GetRelevantOnDemandRecords st a c = (prevPaymentOf (storedPayments st a) c, q.1, q.2) := by
  unfold GetRelevantOnDemandRecords
  rw [hn]

/-- C2: for every on-demand request, the neighbor query returns prev_payment =
the largest stored payment strictly below cumulative_payment (0 if none) and
next_payment, next_data_length = the smallest stored payment strictly above
with its stored data length (0, 0 if none); ValidatePayment accepts exactly
when cumulative_payment is within the on-chain deposit, prev_payment +
charge(data_length) is at most cumulative_payment, and next_payment = 0 or
cumulative_payment + charge(next_data_length) is at most next_payment (sums
taken in u64). -/
theorem validatePayment_characterization (m : Config) (st : OffchainState) (hd : BlobHeader)
    (dep : OnDemandPayment) :
    (∀ q ∈ storedPayments st hd.AccountID, q.1 < hd.CumulativePayment →
      q.1 ≤ (GetRelevantOnDemandRecords st hd.AccountID hd.CumulativePayment).1) ∧
    ((GetRelevantOnDemandRecords st hd.AccountID hd.CumulativePayment).1 = 0 ∨
      (∃ l, ((GetRelevantOnDemandRecords st hd.AccountID hd.CumulativePayment).1, l) ∈
          storedPayments st hd.AccountID ∧
        (GetRelevantOnDemandRecords st hd.AccountID hd.CumulativePayment).1 <
          hd.CumulativePayment)) ∧
    (((GetRelevantOnDemandRecords st hd.AccountID hd.CumulativePayment).2.1 = 0 ∧
        (GetRelevantOnDemandRecords st hd.AccountID hd.CumulativePayment).2.2 = 0 ∧
        ∀ q ∈ storedPayments st hd.AccountID, ¬ hd.CumulativePayment < q.1) ∨
      (((GetRelevantOnDemandRecords st hd.AccountID hd.CumulativePayment).2.1,
          (GetRelevantOnDemandRecords st hd.AccountID hd.CumulativePayment).2.2) ∈
          storedPayments st hd.AccountID ∧
        hd.CumulativePayment <
          (GetRelevantOnDemandRecords st hd.AccountID hd.CumulativePayment).2.1 ∧
        ∀ q ∈ storedPayments st hd.AccountID, hd.CumulativePayment < q.1 →
          (GetRelevantOnDemandRecords st hd.AccountID hd.CumulativePayment).2.1 ≤ q.1)) ∧
    (ValidatePayment m st hd dep = .ok () ↔
      (hd.CumulativePayment ≤ dep.CumulativePayment ∧
        ((GetRelevantOnDemandRecords st hd.AccountID hd.CumulativePayment).1 +
            PaymentCharged m hd.DataLength) % 2 ^ 64 ≤ hd.CumulativePayment ∧
        ((GetRelevantOnDemandRecords st hd.AccountID hd.CumulativePayment).2.1 = 0 ∨
          (hd.CumulativePayment +
              PaymentCharged m
                (GetRelevantOnDemandRecords st hd.AccountID hd.CumulativePayment).2.2) % 2 ^ 64 ≤
            (GetRelevantOnDemandRecords st hd.AccountID hd.CumulativePayment).2.1))) := by
  refine ⟨?_, ?_, ?_, ?_⟩
  · intro q hq hlt
    cases hn : nextRecordOf (storedPayments st hd.AccountID) hd.CumulativePayment with
    | none =>
      rw [getRelevant_eq_of_none _ _ _ hn]
      exact prevFold_ub _ _ q hq hlt 0
    | some qn =>
      rw [getRelevant_eq_of_some _ _ _ _ hn]
      exact prevFold_ub _ _ q hq hlt 0
  · cases hn : nextRecordOf (storedPayments st hd.AccountID) hd.CumulativePayment with
    | none =>
      rw [getRelevant_eq_of_none _ _ _ hn]
      rcases prevFold_mem (storedPayments st hd.AccountID) hd.CumulativePayment 0 with h | ⟨l, hmem, hlt⟩
      · exact Or.inl h
      · exact Or.inr ⟨l, hmem, hlt⟩
    | some qn =>
      rw [getRelevant_eq_of_some _ _ _ _ hn]
      rcases prevFold_mem (storedPayments st hd.AccountID) hd.CumulativePayment 0 with h | ⟨l, hmem, hlt⟩
      · exact Or.inl h
      · exact Or.inr ⟨l, hmem, hlt⟩
  · cases hn : nextRecordOf (storedPayments st hd.AccountID) hd.CumulativePayment with
    | none =>
      rw [getRelevant_eq_of_none _ _ _ hn]
      obtain ⟨_, hnone⟩ := nextFold_none (storedPayments st hd.AccountID) hd.CumulativePayment none hn
      exact Or.inl ⟨rfl, rfl, hnone⟩
    | some qn =>
      rw [getRelevant_eq_of_some _ _ _ _ hn]
      obtain ⟨hc, hmem, hub, _⟩ :=
        nextFold_some (storedPayments st hd.AccountID) hd.CumulativePayment none
          (fun q0 h0 => Option.noConfusion h0) qn hn
      rcases hmem with hq | hq
      · exact Or.inr ⟨hq, hc, hub⟩
      · exact Option.noConfusion hq
  · simp only [ValidatePayment]
    by_cases hd1 : hd.CumulativePayment > dep.CumulativePayment
    · rw [if_pos hd1]
      constructor
      · intro h0
        exact Except.noConfusion h0
      · intro h0
        exact absurd h0.1 (Nat.not_le.mpr hd1)
    · rw [if_neg hd1]
      by_cases hd2 : ((GetRelevantOnDemandRecords st hd.AccountID hd.CumulativePayment).1 +
          PaymentCharged m hd.DataLength) % 2 ^ 64 > hd.CumulativePayment
      · rw [if_pos hd2]
        constructor
        · intro h0
          exact Except.noConfusion h0
        · intro h0
          exact absurd h0.2.1 (Nat.not_le.mpr hd2)
      · rw [if_neg hd2]
        by_cases hd3 : (GetRelevantOnDemandRecords st hd.AccountID hd.CumulativePayment).2.1 ≠ 0 ∧
            (hd.CumulativePayment +
                PaymentCharged m
                  (GetRelevantOnDemandRecords st hd.AccountID hd.CumulativePayment).2.2) % 2 ^ 64 >
              (GetRelevantOnDemandRecords st hd.AccountID hd.CumulativePayment).2.1
        · rw [if_pos hd3]
          constructor
          · intro h0
            exact Except.noConfusion h0
          · intro h0
            rcases h0.2.2 with hz | hle
            · exact absurd hz hd3.1
            · exact absurd hle (Nat.not_le.mpr hd3.2)
        · rw [if_neg hd3]
          constructor
          · intro _
            refine ⟨Nat.not_lt.mp hd1, Nat.not_lt.mp hd2, ?_⟩
            by_cases hz : (GetRelevantOnDemandRecords st hd.AccountID hd.CumulativePayment).2.1 = 0
            · exact Or.inl hz
            · refine Or.inr (Nat.not_lt.mp ?_)
              intro hgt
              exact hd3 ⟨hz, hgt⟩
          · intro _
            rfl

theorem validatePayment_characterization_witness :
    ValidatePayment cfgC stE hdrE depA = .ok () :=
  (validatePayment_characterization cfgC stE hdrE depA).2.2.2.mpr (by decide)

theorem updateGlobalBin_eq (st : OffchainState) (bi s : Nat) :
    UpdateGlobalBin st bi s =
      (lookupGlobalBin st.globalBins bi + s,
       { st with globalBins := (bi, lookupGlobalBin st.globalBins bi + s) :: st.globalBins }) := rfl

theorem filter_keep_of_fresh (recs : List (String × Nat × Nat)) (a : String) (c : Nat)
    (hf : (recs.any fun r => r.1 == a && r.2.1 == c) = false) :
    recs.filter (fun r => !(r.1 == a && r.2.1 == c)) = recs := by
  apply List.filter_eq_self.mpr
  intro r hr
  have hnot := List.any_eq_false.mp hf r hr
  cases hb : (r.1 == a && r.2.1 == c)
  · rfl
  · exact absurd hb hnot

theorem remove_cons_self (recs : List (String × Nat × Nat)) (a : String) (c l : Nat)
    (hf : (recs.any fun r => r.1 == a && r.2.1 == c) = false) :
    ((a, c, l) :: recs).filter (fun r => !(r.1 == a && r.2.1 == c)) = recs := by
  rw [List.filter_cons_of_neg (by simp)]
  exact filter_keep_of_fresh recs a c hf

/-- C5: for an on-demand request that passes the quorum gate and whose payment
record insert succeeds, if ValidatePayment fails after the insert the request
is rejected but the inserted record remains stored (no compensating delete);
if ValidatePayment passes and the global per-second counter increment pushes
the counter above global_bytes_per_second the inserted record is deleted and
the request is rejected with the rate-limit kind; otherwise the request is
accepted with the record stored. The delete after the global rate limit is the
only compensating action. -/
theorem serveOnDemand_compensation (m : Config) (now : Nat) (st : OffchainState)
    (hd : BlobHeader) (dep : OnDemandPayment)
    (hq : ValidateQuorum hd OnDemandQuorumNumbers = .ok ())
    (hfresh : hasOnDemandRecord st hd.AccountID hd.CumulativePayment = false) :
    (∀ e, ValidatePayment m (insertOnDemandRecord st hd.AccountID hd.CumulativePayment
          (BlobSizeCharged m hd.DataLength)) hd dep = .error e →
      ServeOnDemandRequest m now st hd dep =
        (.error e, insertOnDemandRecord st hd.AccountID hd.CumulativePayment
          (BlobSizeCharged m hd.DataLength)) ∧
      hasOnDemandRecord (ServeOnDemandRequest m now st hd dep).2 hd.AccountID
        hd.CumulativePayment = true) ∧
    (ValidatePayment m (insertOnDemandRecord st hd.AccountID hd.CumulativePayment
          (BlobSizeCharged m hd.DataLength)) hd dep = .ok () →
      m.GlobalBytesPerSecond < lookupGlobalBin st.globalBins now + BlobSizeCharged m hd.DataLength →
      (ServeOnDemandRequest m now st hd dep).1 = .error .globalRateLimited ∧
      (ServeOnDemandRequest m now st hd dep).2.onDemandRecords = st.onDemandRecords) ∧
    (ValidatePayment m (insertOnDemandRecord st hd.AccountID hd.CumulativePayment
          (BlobSizeCharged m hd.DataLength)) hd dep = .ok () →
      lookupGlobalBin st.globalBins now + BlobSizeCharged m hd.DataLength ≤ m.GlobalBytesPerSecond →
      ServeOnDemandRequest m now st hd dep =
        (.ok (), (UpdateGlobalBin (insertOnDemandRecord st hd.AccountID hd.CumulativePayment
          (BlobSizeCharged m hd.DataLength)) now (BlobSizeCharged m hd.DataLength)).2) ∧
      hasOnDemandRecord (ServeOnDemandRequest m now st hd dep).2 hd.AccountID
        hd.CumulativePayment = true) := by
  have hadd : AddOnDemandPayment st hd.AccountID hd.CumulativePayment
      (BlobSizeCharged m hd.DataLength) =
      .ok (insertOnDemandRecord st hd.AccountID hd.CumulativePayment
        (BlobSizeCharged m hd.DataLength)) := by
    simp [AddOnDemandPayment, hfresh]
  refine ⟨?_, ?_, ?_⟩
  · intro e he
    have hres : ServeOnDemandRequest m now st hd dep =
        (.error e, insertOnDemandRecord st hd.AccountID hd.CumulativePayment
          (BlobSizeCharged m hd.DataLength)) := by
      simp only [ServeOnDemandRequest, hq, hadd, he]
    refine ⟨hres, ?_⟩
    rw [hres]
    simp [insertOnDemandRecord, hasOnDemandRecord]
  · intro hvp hover
    have hinc : IncrementGlobalBinUsage m now (insertOnDemandRecord st hd.AccountID
        hd.CumulativePayment (BlobSizeCharged m hd.DataLength)) (BlobSizeCharged m hd.DataLength) =
        (.error .globalBinUsageOverflows,
          (UpdateGlobalBin (insertOnDemandRecord st hd.AccountID hd.CumulativePayment
            (BlobSizeCharged m hd.DataLength)) now (BlobSizeCharged m hd.DataLength)).2) := by
      simp only [IncrementGlobalBinUsage]
      rw [if_pos (show m.GlobalBytesPerSecond <
        (UpdateGlobalBin (insertOnDemandRecord st hd.AccountID hd.CumulativePayment
          (BlobSizeCharged m hd.DataLength)) now (BlobSizeCharged m hd.DataLength)).1 from hover)]
    have hres : ServeOnDemandRequest m now st hd dep =
        (.error .globalRateLimited,
          RemoveOnDemandPayment
            (UpdateGlobalBin (insertOnDemandRecord st hd.AccountID hd.CumulativePayment
              (BlobSizeCharged m hd.DataLength)) now (BlobSizeCharged m hd.DataLength)).2
            hd.AccountID hd.CumulativePayment) := by
      simp only [ServeOnDemandRequest, hq, hadd, hvp, hinc]
    refine ⟨by rw [hres], ?_⟩
    rw [hres]
    dsimp only [updateGlobalBin_eq, insertOnDemandRecord, RemoveOnDemandPayment]
    apply remove_cons_self
    exact hfresh
  · intro hvp hunder
    have hinc : IncrementGlobalBinUsage m now (insertOnDemandRecord st hd.AccountID
        hd.CumulativePayment (BlobSizeCharged m hd.DataLength)) (BlobSizeCharged m hd.DataLength) =
        (.ok (),
          (UpdateGlobalBin (insertOnDemandRecord st hd.AccountID hd.CumulativePayment
            (BlobSizeCharged m hd.DataLength)) now (BlobSizeCharged m hd.DataLength)).2) := by
      simp only [IncrementGlobalBinUsage]
      rw [if_neg (show ¬ m.GlobalBytesPerSecond <
        (UpdateGlobalBin (insertOnDemandRecord st hd.AccountID hd.CumulativePayment
          (BlobSizeCharged m hd.DataLength)) now (BlobSizeCharged m hd.DataLength)).1
        from Nat.not_lt.mpr hunder)]
    have hres : ServeOnDemandRequest m now st hd dep =
        (.ok (), (UpdateGlobalBin (insertOnDemandRecord st hd.AccountID hd.CumulativePayment
          (BlobSizeCharged m hd.DataLength)) now (BlobSizeCharged m hd.DataLength)).2) := by
      simp only [ServeOnDemandRequest, hq, hadd, hvp, hinc]
    refine ⟨hres, ?_⟩
    rw [hres]
    dsimp only [updateGlobalBin_eq, insertOnDemandRecord, hasOnDemandRecord]
    simp

theorem serveOnDemand_compensation_witness :
    (ServeOnDemandRequest cfgD 7 OffchainState.empty hdrD depA).1 = .error .globalRateLimited ∧
    (ServeOnDemandRequest cfgD 7 OffchainState.empty hdrD depA).2.onDemandRecords =
      OffchainState.empty.onDemandRecords :=
  (serveOnDemand_compensation cfgD 7 OffchainState.empty hdrD depA (by decide)
    (by decide)).2.1 (by decide) (by decide)

end EigenDA
